import Mathlib

/-!
Shallow embedding of the DP poly-path road-graph search
(`modules/planning/optimizer/dp_poly_path/dp_road_graph.cc`).

Machine doubles are modelled as rationals; external collaborators
(reference line, trajectory cost, geometry helpers whose implementations
live outside the given sources) are modelled as explicit function
parameters, following the collaborator contracts stated in the design
document.
-/

/-- Source `common::SLPoint`: arc length along the reference line plus signed
lateral offset. -/
structure SLPoint where
  s : ℚ
  l : ℚ
deriving DecidableEq, Repr

/-- Source `common::FrenetFramePoint`: `(s, l, dl, ddl)`. -/
structure FrenetFramePoint where
  s : ℚ
  l : ℚ
  dl : ℚ
  ddl : ℚ
deriving DecidableEq, Repr

/-- A 2-D Cartesian point (`common::math::Vec2d` used as plain data). -/
structure Vec2 where
  x : ℚ
  y : ℚ
deriving DecidableEq, Repr

/-- Modelled from the spec: `common::math::Box2d` (implementation outside
the given sources) is kept as plain constructor data: center, heading,
length, width — exactly the four arguments the road-graph code passes to
its constructor. -/
structure Box2d where
  center : Vec2
  heading : ℚ
  length : ℚ
  width : ℚ
deriving DecidableEq, Repr

/-- Modelled from the spec: `QuinticPolynomialCurve1d` (implementation
outside the given sources) is the immutable value fit from the six
boundary scalars and a positive arc-length span; evaluation is abstracted
as an external function. -/
structure QuinticPolynomialCurve1d where
  x0 : ℚ
  dx0 : ℚ
  ddx0 : ℚ
  x1 : ℚ
  dx1 : ℚ
  ddx1 : ℚ
  param : ℚ
deriving DecidableEq, Repr

/-- Model of `std::fmin` on (non-NaN) doubles: the smaller argument. -/
def fmin (a b : ℚ) : ℚ := if a < b then a else b

/-- Model of `std::fmax` on (non-NaN) doubles: the larger argument. -/
def fmax (a b : ℚ) : ℚ := if a < b then b else a

/-- The curve built in `DPRoadGraph::Generate` (dp_road_graph.cc:208-210):
boundary lateral positions with forced-zero first and second derivatives. -/
def mkZeroDerivCurve (l0 l1 len : ℚ) : QuinticPolynomialCurve1d :=
  ⟨l0, 0, 0, l1, 0, 0, len⟩

/-- A reference point returned by `ReferenceLine::get_reference_point`. -/
structure ReferencePoint where
  heading : ℚ
  kappa : ℚ
  dkappa : ℚ
deriving DecidableEq, Repr

/-- The `ReferenceLine` collaborator, reduced to the query interface the
road graph actually consumes (spec section 6). -/
structure ReferenceLine where
  get_point_in_frenet_frame : Vec2 → Option SLPoint
  get_point_in_Cartesian_frame : SLPoint → Option Vec2
  get_reference_point : ℚ → ReferencePoint
  is_on_road : SLPoint → Bool
  total_length : ℚ

/-- The `DpPolyPathConfig` fields consumed by the road graph. -/
structure DpPolyPathConfig where
  sample_level : ℕ
  sample_points_num_each_level : ℕ
  lateral_sample_offset : ℚ
  step_length_min : ℚ
  step_length_max : ℚ
  path_resolution : ℚ
  eval_time_interval : ℚ
deriving DecidableEq, Repr

/-- The gflags thresholds consumed by the decision engine. -/
structure PlanningFlags where
  static_decision_stop_buffer : ℚ
  static_decision_ignore_range : ℚ
  dp_path_decision_buffer : ℚ
  dynamic_decision_follow_range : ℚ
  prediction_total_time : ℚ
deriving DecidableEq, Repr

/-- The initial `TrajectoryPoint`: Cartesian position, heading, and speed. -/
structure TrajectoryPoint where
  x : ℚ
  y : ℚ
  theta : ℚ
  v : ℚ
deriving DecidableEq, Repr

/-- Modelled from the spec: the external collaborator functions whose
implementations are outside the given sources — the trajectory-cost
evaluator (`cost = Evaluate(curve, s_start, s_end)`), quintic-curve
evaluation, the vector norm used for running arc length, and the analytic
theta/kappa transformations. -/
structure Externals where
  trajectory_cost : QuinticPolynomialCurve1d → ℚ → ℚ → ℚ
  evaluate : QuinticPolynomialCurve1d → ℕ → ℚ → ℚ
  vec2Length : Vec2 → ℚ
  calculate_theta : ℚ → ℚ → ℚ → ℚ → ℚ
  calculate_kappa : ℚ → ℚ → ℚ → ℚ → ℚ → ℚ

/-- An output Cartesian path point (the fields the road graph writes;
`z`, `dkappa`, `ddkappa` are constant zero in the source). -/
structure PathPoint where
  x : ℚ
  y : ℚ
  theta : ℚ
  kappa : ℚ
  s : ℚ
deriving DecidableEq, Repr

/-- The mutable `PathData` output container: an unset optional field
models "nothing stored yet". -/
structure PathData where
  frenet_path : Option (List FrenetFramePoint)
  discretized_path : Option (List PathPoint)
deriving DecidableEq, Repr

/- ## Lattice sampler (`DPRoadGraph::SamplePathWaypoints`, lines 427-474) -/

/-- The signed lateral sample indices `j = -num .. num` of one level
(dp_road_graph.cc:459-462), `num = sample_points_num_each_level / 2`. -/
def levelLateralIndices (cfg : DpPolyPathConfig) : List ℤ :=
  (List.range (2 * (cfg.sample_points_num_each_level / 2) + 1)).map
    (fun (k : ℕ) => (k : ℤ) - (cfg.sample_points_num_each_level / 2 : ℕ))

/-- One level of candidate waypoints at station `s`: lateral offsets
`lateral_sample_offset * j`, kept only when on the road
(dp_road_graph.cc:462-468). -/
def levelPoints (cfg : DpPolyPathConfig) (reference_line : ReferenceLine)
    (s : ℚ) : List SLPoint :=
  ((levelLateralIndices cfg).map
    (fun (j : ℤ) => SLPoint.mk s (cfg.lateral_sample_offset * (j : ℚ)))).filter
    reference_line.is_on_road

/-- The sampling loop of `SamplePathWaypoints` (dp_road_graph.cc:452-472):
up to `fuel = sample_level` iterations while the accumulated arc length is
below the reference line length; empty levels are not pushed. -/
def sampleLevels (cfg : DpPolyPathConfig) (reference_line : ReferenceLine)
    (level_distance : ℚ) : ℕ → ℚ → List (List SLPoint)
  | 0, _ => []
  | fuel + 1, accumulated_s =>
    if accumulated_s < reference_line.total_length then
      let accumulated_s' := accumulated_s + level_distance
      let s := fmin accumulated_s' reference_line.total_length
      let level_points := levelPoints cfg reference_line s
      (if level_points.isEmpty then [] else [level_points]) ++
        sampleLevels cfg reference_line level_distance fuel accumulated_s'
    else []

/-- Source `DPRoadGraph::SamplePathWaypoints` (dp_road_graph.cc:427-474): project
the initial point, clamp the level distance to
`[step_length_min, step_length_max]`, then run the sampling loop. -/
def SamplePathWaypoints (cfg : DpPolyPathConfig)
    (reference_line : ReferenceLine) (init_point : TrajectoryPoint) :
    Option (List (List SLPoint)) :=
  match reference_line.get_point_in_frenet_frame ⟨init_point.x, init_point.y⟩ with
  | none => none
  | some init_sl_point =>
    let level_distance :=
      fmax cfg.step_length_min (fmin init_point.v cfg.step_length_max)
    some (sampleLevels cfg reference_line level_distance cfg.sample_level
      init_sl_point.s)

/- ## DP graph search (`DPRoadGraph::Generate`, lines 173-234) -/

/-- Modelled from the spec: `DPRoadGraphNode` (declared in the header,
outside the given sources): SL point, non-owning predecessor pointer
(`orphan` = null), best cumulative cost (top = "none yet", the infinite
initial cost), and the best incoming curve. -/
inductive DPRoadGraphNode : Type where
  | orphan (sl_point : SLPoint) (min_cost : WithTop ℚ)
      (min_cost_curve : Option QuinticPolynomialCurve1d) : DPRoadGraphNode
  | linked (sl_point : SLPoint) (prev : DPRoadGraphNode)
      (min_cost : WithTop ℚ)
      (min_cost_curve : Option QuinticPolynomialCurve1d) : DPRoadGraphNode

def DPRoadGraphNode.sl_point : DPRoadGraphNode → SLPoint
  | .orphan p _ _ => p
  | .linked p _ _ _ => p

def DPRoadGraphNode.min_cost_prev_node : DPRoadGraphNode → Option DPRoadGraphNode
  | .orphan _ _ _ => none
  | .linked _ p _ _ => some p

def DPRoadGraphNode.min_cost : DPRoadGraphNode → WithTop ℚ
  | .orphan _ c _ => c
  | .linked _ _ c _ => c

def DPRoadGraphNode.min_cost_curve :
    DPRoadGraphNode → Option QuinticPolynomialCurve1d
  | .orphan _ _ c => c
  | .linked _ _ _ c => c

/-- Modelled from the spec: `DPRoadGraphNode::UpdateCost` — strict
improvement replaces cost, predecessor pointer, and curve. -/
def UpdateCost (cur : DPRoadGraphNode) (prev : DPRoadGraphNode)
    (curve : Option QuinticPolynomialCurve1d) (cost : WithTop ℚ) :
    DPRoadGraphNode :=
  if cost < cur.min_cost then .linked cur.sl_point prev cost curve else cur

/-- The edge cost of one level transition: the external evaluator applied
to the forced-zero-derivative curve over `[p.s, n.s]`
(dp_road_graph.cc:208-213). -/
def edgeCost (tc : QuinticPolynomialCurve1d → ℚ → ℚ → ℚ) (p n : SLPoint) : ℚ :=
  tc (mkZeroDerivCurve p.l n.l (n.s - p.s)) p.s n.s

/-- The inner relaxation of one candidate node against every node of the
previous level, in order (dp_road_graph.cc:201-215). -/
def relaxNode (tc : QuinticPolynomialCurve1d → ℚ → ℚ → ℚ)
    (prev_dp_nodes : List DPRoadGraphNode) (cur_sl_point : SLPoint) :
    DPRoadGraphNode :=
  prev_dp_nodes.foldl
    (fun cur_node prev_dp_node =>
      UpdateCost cur_node prev_dp_node
        (some (mkZeroDerivCurve prev_dp_node.sl_point.l cur_sl_point.l
          (cur_sl_point.s - prev_dp_node.sl_point.s)))
        ((edgeCost tc prev_dp_node.sl_point cur_sl_point : ℚ) +
          prev_dp_node.min_cost))
    (.orphan cur_sl_point ⊤ none)

/-- The level loop of `Generate` (dp_road_graph.cc:198-217), returning the
last processed level (`graph_nodes.back()`). -/
def runLevels (tc : QuinticPolynomialCurve1d → ℚ → ℚ → ℚ) :
    List DPRoadGraphNode → List (List SLPoint) → List DPRoadGraphNode
  | prev, [] => prev
  | prev, level_points :: rest =>
    runLevels tc (level_points.map (relaxNode tc prev)) rest

/-- The root node, level 0 (dp_road_graph.cc:194): the initial SL point
with cost 0 and no predecessor. -/
def rootNode (init_sl_point : SLPoint) : DPRoadGraphNode :=
  .orphan init_sl_point 0 none

/-- The whole node lattice run: root level followed by the sampled levels
(dp_road_graph.cc:185, 193-217). -/
def generateGraphLastLevel (tc : QuinticPolynomialCurve1d → ℚ → ℚ → ℚ)
    (init_sl_point : SLPoint) (path_waypoints : List (List SLPoint)) :
    List DPRoadGraphNode :=
  runLevels tc [rootNode init_sl_point] path_waypoints

/-- The synthetic sink aggregation over the last level
(dp_road_graph.cc:220-226): each node relaxes the `fake_head` with its own
`min_cost` — no extra cost added. -/
def aggregateSink (last_dp_nodes : List DPRoadGraphNode) : DPRoadGraphNode :=
  last_dp_nodes.foldl
    (fun fake_head cur_dp_node =>
      UpdateCost fake_head cur_dp_node cur_dp_node.min_cost_curve
        cur_dp_node.min_cost)
    (.orphan ⟨0, 0⟩ ⊤ none)

/-- The backtracking loop of `Generate` (dp_road_graph.cc:227-232):
follow predecessor pointers, collect, reverse. -/
def backtrack : DPRoadGraphNode → List DPRoadGraphNode
  | .orphan _ _ _ => []
  | .linked _ p _ _ => backtrack p ++ [p]

/-- The output chain `min_cost_path` of `DPRoadGraph::Generate`, root → goal. -/
def generateMinCostPath (tc : QuinticPolynomialCurve1d → ℚ → ℚ → ℚ)
    (init_sl_point : SLPoint) (path_waypoints : List (List SLPoint)) :
    List DPRoadGraphNode :=
  backtrack (aggregateSink (generateGraphLastLevel tc init_sl_point path_waypoints))

/-- The recomputed cost of a chain: the sum of the edge costs
`Evaluate(curve, p.s, n.s)` over consecutive pairs. -/
def sumEdges (tc : QuinticPolynomialCurve1d → ℚ → ℚ → ℚ) :
    List DPRoadGraphNode → ℚ
  | a :: b :: rest =>
    edgeCost tc a.sl_point b.sl_point + sumEdges tc (b :: rest)
  | _ => 0

/-- The cost of the predecessor chain ending at a node, recomputed from
the edge costs. -/
def pathCost (tc : QuinticPolynomialCurve1d → ℚ → ℚ → ℚ) :
    DPRoadGraphNode → ℚ
  | .orphan _ _ _ => 0
  | .linked sl p _ _ => pathCost tc p + edgeCost tc p.sl_point sl

/- ## Path stitcher (`DPRoadGraph::FindPathTunnel`, lines 67-89) -/

/-- The local arc lengths emitted by the per-segment while loop
(dp_road_graph.cc:74-87): start at 0, advance by `path_resolution`, emit
while strictly below the segment length. Modelled from the spec:
`Double::compare` (outside the given sources) is the strict comparison
("last partial step included if it falls strictly before the end"). The
structural fuel argument makes the loop total; `stitchLocal` supplies fuel
sufficient for any positive resolution. -/
def stitchLoopF (path_resolution path_length : ℚ) :
    ℕ → ℚ → List ℚ
  | 0, _ => []
  | fuel + 1, current_s =>
    if current_s < path_length then
      current_s :: stitchLoopF path_resolution path_length fuel
        (current_s + path_resolution)
    else []

/-- The full list of local arc lengths of one segment. -/
def stitchLocal (path_resolution path_length : ℚ) : List ℚ :=
  stitchLoopF path_resolution path_length
    (⌈path_length / path_resolution⌉.toNat + 1) 0

/-- The segment loop of `FindPathTunnel` (dp_road_graph.cc:70-89): for
each consecutive node pair evaluate the current node's stored curve at
each local arc length, emit at `accumulated_s + current_s`, then advance
`accumulated_s` by the full segment length. -/
def stitchSegments (ext : Externals) (path_resolution : ℚ) :
    ℚ → List DPRoadGraphNode → List FrenetFramePoint
  | _, [] => []
  | _, [_] => []
  | accumulated_s, prev_node :: cur_node :: rest =>
    let path_length := cur_node.sl_point.s - prev_node.sl_point.s
    let curve := cur_node.min_cost_curve.getD (mkZeroDerivCurve 0 0 0)
    ((stitchLocal path_resolution path_length).map fun current_s =>
      FrenetFramePoint.mk (accumulated_s + current_s)
        (ext.evaluate curve 0 current_s)
        (ext.evaluate curve 1 current_s)
        (ext.evaluate curve 2 current_s)) ++
      stitchSegments ext path_resolution (accumulated_s + path_length)
        (cur_node :: rest)

/- ## Frenet → Cartesian conversion (`FindPathTunnel`, lines 94-130) -/

/-- One pass of the conversion loop: map each Frenet point through the
reference line, derive theta and kappa analytically, and set `s` to 0 for
the first point and to the previous `s` plus the Euclidean distance
between consecutive Cartesian positions otherwise
(dp_road_graph.cc:95-130). A failed conversion aborts with `none`. -/
def convertLoop (ext : Externals) (reference_line : ReferenceLine)
    (path_points : List PathPoint) :
    List FrenetFramePoint → Option (List PathPoint)
  | [] => some path_points
  | frenet_point :: rest =>
    match reference_line.get_point_in_Cartesian_frame
        ⟨frenet_point.s, frenet_point.l⟩ with
    | none => none
    | some cartesian_point =>
      let ref_point := reference_line.get_reference_point frenet_point.s
      let theta := ext.calculate_theta ref_point.heading ref_point.kappa
        frenet_point.l frenet_point.dl
      let kappa := ext.calculate_kappa ref_point.kappa ref_point.dkappa
        frenet_point.l frenet_point.dl frenet_point.ddl
      let path_point : PathPoint :=
        ⟨cartesian_point.x, cartesian_point.y, theta, kappa, 0⟩
      let path_point' :=
        match path_points.getLast? with
        | none => path_point
        | some last =>
          { path_point with
            s := last.s + ext.vec2Length
              ⟨last.x - path_point.x, last.y - path_point.y⟩ }
      convertLoop ext reference_line (path_points ++ [path_point']) rest

/- ## `DPRoadGraph::FindPathTunnel` (lines 53-142) -/

/-- Source `FindPathTunnel`: init projection, graph generation, stitching (the
Frenet path is stored before conversion starts), Cartesian conversion,
and storage of the discretized path. Returns the success flag and the
final state of the output container. The decision computation
(dp_road_graph.cc:134-139) mutates only the obstacle decision lists and
never the returned flag or the path container; it is modelled separately
below. -/
def FindPathTunnel (ext : Externals) (cfg : DpPolyPathConfig)
    (reference_line : ReferenceLine) (init_point : TrajectoryPoint)
    (path_data : PathData) : Bool × PathData :=
  match reference_line.get_point_in_frenet_frame
      ⟨init_point.x, init_point.y⟩ with
  | none => (false, path_data)
  | some init_sl_point =>
    match SamplePathWaypoints cfg reference_line init_point with
    | none => (false, path_data)
    | some path_waypoints =>
      let min_cost_path :=
        generateMinCostPath ext.trajectory_cost init_sl_point path_waypoints
      let frenet_path :=
        stitchSegments ext cfg.path_resolution init_sl_point.s min_cost_path
      let path_data1 := { path_data with frenet_path := some frenet_path }
      match convertLoop ext reference_line [] frenet_path with
      | none => (false, path_data1)
      | some path_points =>
        (true, { path_data1 with discretized_path := some path_points })

/- ## Obstacle decision engine
(`DPRoadGraph::compute_object_decision_from_path`, lines 236-375, and
`DPRoadGraph::fill_ego_by_time`, lines 377-425) -/

/-- The stop-reason code written by the static branch. -/
inductive StopReasonCode where
  | STOP_REASON_OBSTACLE
deriving DecidableEq, Repr

/-- Nudge direction (`ObjectNudge::RIGHT_NUDGE` / `LEFT_NUDGE`). -/
inductive NudgeType where
  | RIGHT_NUDGE
  | LEFT_NUDGE
deriving DecidableEq, Repr

/-- The `ObjectDecisionType` variants: the tagged decisions the engine appends. -/
inductive ObjectDecisionType where
  | stop (distance_s : ℚ) (reason_code : StopReasonCode)
  | nudge (distance_l : ℚ) (type : NudgeType)
  | follow (distance_s : ℚ)
  | ignore
deriving DecidableEq, Repr

/-- One ego sample as indexed by the static-obstacle loop `j`
(dp_road_graph.cc:279-280, 285): the projected Frenet point
`ego_sl_points[j]` paired with the Cartesian box `ego_bounding_box[j]`. -/
structure EgoSample where
  ego_sl : SLPoint
  box : Box2d
deriving DecidableEq, Repr

/-- The per-sample scan of one static obstacle (dp_road_graph.cc:279-319):
skip out-of-range samples; a stop, right-nudge, or left-nudge branch
appends its decision and breaks; otherwise continue. `has_overlap` models
`static_obstacle_box.HasOverlap(ego_bounding_box[j])` (geometry outside
the given sources). -/
def staticScan (fl : PlanningFlags) (has_overlap : Box2d → Bool)
    (obs_half_length : ℚ) (obs_sl : SLPoint) :
    List EgoSample → Option ObjectDecisionType
  | [] => none
  | sample :: rest =>
    if sample.ego_sl.s < obs_sl.s - obs_half_length ∨
        sample.ego_sl.s > obs_sl.s + obs_half_length then
      staticScan fl has_overlap obs_half_length obs_sl rest
    else if has_overlap sample.box = true ∧
        |obs_sl.l| < fl.static_decision_stop_buffer then
      some (.stop fl.dp_path_decision_buffer .STOP_REASON_OBSTACLE)
    else
      let diff_l := obs_sl.l - sample.ego_sl.l
      if diff_l > 0 ∧ |diff_l| < fl.static_decision_ignore_range then
        some (.nudge fl.dp_path_decision_buffer .RIGHT_NUDGE)
      else if diff_l < 0 ∧ |diff_l| < fl.static_decision_ignore_range then
        some (.nudge fl.dp_path_decision_buffer .LEFT_NUDGE)
      else staticScan fl has_overlap obs_half_length obs_sl rest

/-- The decisions appended for one static obstacle in one planning cycle
(dp_road_graph.cc:268-327): the scan's decision if a branch fired, else a
single Ignore. -/
def staticObstacleDecisions (fl : PlanningFlags) (has_overlap : Box2d → Bool)
    (obs_half_length : ℚ) (obs_sl : SLPoint) (samples : List EgoSample) :
    List ObjectDecisionType :=
  match staticScan fl has_overlap obs_half_length obs_sl samples with
  | some decision => [decision]
  | none => [.ignore]

/-- Whether a sample fires one of the three decision branches: it is
within the longitudinal range and satisfies the stop condition or one of
the nudge conditions. -/
def firesBranch (fl : PlanningFlags) (has_overlap : Box2d → Bool)
    (obs_half_length : ℚ) (obs_sl : SLPoint) (sample : EgoSample) : Prop :=
  ¬(sample.ego_sl.s < obs_sl.s - obs_half_length ∨
      sample.ego_sl.s > obs_sl.s + obs_half_length) ∧
    ((has_overlap sample.box = true ∧
        |obs_sl.l| < fl.static_decision_stop_buffer) ∨
      (obs_sl.l - sample.ego_sl.l > 0 ∧
        |obs_sl.l - sample.ego_sl.l| < fl.static_decision_ignore_range) ∨
      (obs_sl.l - sample.ego_sl.l < 0 ∧
        |obs_sl.l - sample.ego_sl.l| < fl.static_decision_ignore_range))

/-- The collision-judging loop over the matched time series of one
dynamic obstacle (dp_road_graph.cc:362-372): at the first pair whose
distance is below the follow range, append one Follow and break.
`dist` models `Box2d::DistanceTo` (geometry outside the given sources). -/
def followScan (fl : PlanningFlags) (dist : Box2d → Box2d → ℚ) :
    List (Box2d × Box2d) → List ObjectDecisionType
  | [] => []
  | (ego_box, obstacle_box) :: rest =>
    if dist ego_box obstacle_box < fl.dynamic_decision_follow_range then
      [.follow fl.dp_path_decision_buffer]
    else followScan fl dist rest

/-- The per-obstacle dynamic decision step (dp_road_graph.cc:353-372):
skip the obstacle entirely when the two time series disagree in length,
otherwise run the collision-judging loop over the index-matched pairs. -/
def dynamicJudge (fl : PlanningFlags) (dist : Box2d → Box2d → ℚ)
    (ego_by_time obstacle_by_time : List Box2d) : List ObjectDecisionType :=
  if obstacle_by_time.length ≠ ego_by_time.length then []
  else followScan fl dist (ego_by_time.zip obstacle_by_time)

/-- The `evaluate_times` count (dp_road_graph.cc:332-335): the floor of the capped
total time divided by the evaluation interval. -/
def evaluateTimes (fl : PlanningFlags) (cfg : DpPolyPathConfig)
    (speed_data_total_time : ℚ) : ℕ :=
  ⌊fmin speed_data_total_time fl.prediction_total_time /
    cfg.eval_time_interval⌋.toNat

/-- The obstacle-by-time series (dp_road_graph.cc:346-351): one box per
time index `0 .. evaluate_times` inclusive. `obstacle_box_at` composes
`GetPointAtTime` and `GetBoundingBox` of the obstacle collaborator. -/
def obstacleByTime (cfg : DpPolyPathConfig) (obstacle_box_at : ℚ → Box2d)
    (evaluate_times : ℕ) : List Box2d :=
  (List.range (evaluate_times + 1)).map
    (fun (time : ℕ) => obstacle_box_at ((time : ℚ) * cfg.eval_time_interval))

/-- The inputs of `fill_ego_by_time` that come from collaborators: the
speed profile lookup, the dense-path interpolation, and the angle
helpers (atan2 and normalization, outside the given sources). -/
structure EgoByTimeEnv where
  get_speed_point_with_time : ℚ → Option ℚ
  interpolate : ℚ → FrenetFramePoint
  reference_line : ReferenceLine
  atan2 : ℚ → ℚ → ℚ
  normalize_angle : ℚ → ℚ
  vehicle_param_length : ℚ
  vehicle_param_width : ℚ

/-- One ego box of `fill_ego_by_time` (dp_road_graph.cc:396-422) given the
speed-profile arc length at the time stamp. Both box extents are sourced
from the vehicle length parameter, exactly as in the source
(dp_road_graph.cc:384-385). A failed Cartesian conversion leaves the
position at the default-constructed origin, as the ignored return value
does (dp_road_graph.cc:406-407). -/
def egoBoxAt (env : EgoByTimeEnv) (speed_point_s : ℚ) : Box2d :=
  let interpolated := env.interpolate speed_point_s
  let ego_position_cartesian :=
    (env.reference_line.get_point_in_Cartesian_frame
      ⟨interpolated.s, interpolated.l⟩).getD ⟨0, 0⟩
  let reference_point :=
    env.reference_line.get_reference_point interpolated.s
  let one_minus_kappa_r_d := 1 - reference_point.kappa * interpolated.l
  let delta_theta := env.atan2 interpolated.dl one_minus_kappa_r_d
  let theta := env.normalize_angle (delta_theta + reference_point.heading)
  ⟨ego_position_cartesian, theta, env.vehicle_param_length,
    env.vehicle_param_length⟩

/-- Source `DPRoadGraph::fill_ego_by_time` (dp_road_graph.cc:377-425): for time
indices `0 .. evaluate_times - 1`, look up the speed point; a failed
lookup returns failure with the boxes pushed so far. -/
def fill_ego_by_time (cfg : DpPolyPathConfig) (env : EgoByTimeEnv)
    (evaluate_times : ℕ) (i : ℕ) : List Box2d × Bool :=
  if i < evaluate_times then
    match env.get_speed_point_with_time (i * cfg.eval_time_interval) with
    | none => ([], false)
    | some speed_point_s =>
      let box := egoBoxAt env speed_point_s
      let result := fill_ego_by_time cfg env evaluate_times (i + 1)
      (box :: result.1, result.2)
  else ([], true)
termination_by evaluate_times - i

/-- The decisions appended for one dynamic obstacle in one planning cycle
(dp_road_graph.cc:336-373): build both time series, then run the
judge with its size-mismatch skip. -/
def dynamicObstacleDecisions (fl : PlanningFlags) (cfg : DpPolyPathConfig)
    (env : EgoByTimeEnv) (dist : Box2d → Box2d → ℚ)
    (obstacle_box_at : ℚ → Box2d) (evaluate_times : ℕ) :
    List ObjectDecisionType :=
  let ego_by_time := (fill_ego_by_time cfg env evaluate_times 0).1
  let obstacle_by_time := obstacleByTime cfg obstacle_box_at evaluate_times
  dynamicJudge fl dist ego_by_time obstacle_by_time

/-- The output-path arc-length discipline (dp_road_graph.cc:121-128):
each point's `s` is the previous point's `s` plus the collaborator norm of
the difference of the consecutive Cartesian positions, in the source's
operand order `last - current`. -/
def sChained (norm : Vec2 → ℚ) : List PathPoint → Prop
  | [] => True
  | [_] => True
  | a :: b :: rest =>
    b.s = a.s + norm ⟨a.x - b.x, a.y - b.y⟩ ∧ sChained norm (b :: rest)

/- ## Lemmas: lattice sampler -/

theorem mem_levelLateralIndices (cfg : DpPolyPathConfig) (j : ℤ) :
    j ∈ levelLateralIndices cfg ↔
      -((cfg.sample_points_num_each_level / 2 : ℕ) : ℤ) ≤ j ∧
        j ≤ ((cfg.sample_points_num_each_level / 2 : ℕ) : ℤ) := by
  unfold levelLateralIndices
  simp only [List.mem_map, List.mem_range]
  constructor
  · rintro ⟨k, hk, rfl⟩
    omega
  · rintro ⟨h1, h2⟩
    refine ⟨(j + (cfg.sample_points_num_each_level / 2 : ℕ)).toNat, ?_, ?_⟩ <;>
      omega

theorem mem_levelPoints (cfg : DpPolyPathConfig)
    (reference_line : ReferenceLine) (s : ℚ) (q : SLPoint) :
    q ∈ levelPoints cfg reference_line s ↔
      reference_line.is_on_road q = true ∧
        ∃ j ∈ levelLateralIndices cfg,
          q = SLPoint.mk s (cfg.lateral_sample_offset * (j : ℚ)) := by
  unfold levelPoints
  rw [List.mem_filter]
  simp only [List.mem_map]
  constructor
  · rintro ⟨⟨j, hj, rfl⟩, hroad⟩
    exact ⟨hroad, j, hj, rfl⟩
  · rintro ⟨hroad, j, hj, rfl⟩
    exact ⟨⟨j, hj, rfl⟩, hroad⟩

theorem sampleLevels_mem (cfg : DpPolyPathConfig)
    (reference_line : ReferenceLine) (level_distance : ℚ) :
    ∀ (fuel : ℕ) (accumulated_s : ℚ) (lvl : List SLPoint),
      lvl ∈ sampleLevels cfg reference_line level_distance fuel accumulated_s →
      ∃ s, lvl = levelPoints cfg reference_line s ∧ lvl ≠ [] := by
  intro fuel
  induction fuel with
  | zero => intro accumulated_s lvl h; simp [sampleLevels] at h
  | succ n ih =>
    intro accumulated_s lvl h
    rw [sampleLevels] at h
    by_cases hlt : accumulated_s < reference_line.total_length
    · rw [if_pos hlt, List.mem_append] at h
      rcases h with h | h
      · by_cases he :
          (levelPoints cfg reference_line
            (fmin (accumulated_s + level_distance)
              reference_line.total_length)).isEmpty
        · rw [if_pos he] at h
          simp at h
        · rw [if_neg he] at h
          rcases List.mem_singleton.mp h with rfl
          exact ⟨_, rfl, by simpa [List.isEmpty_iff] using he⟩
      · exact ih _ _ h
    · rw [if_neg hlt] at h
      simp at h

theorem sampleLevels_of_beyond (cfg : DpPolyPathConfig)
    (reference_line : ReferenceLine) (level_distance : ℚ) (fuel : ℕ)
    (accumulated_s : ℚ)
    (h : reference_line.total_length ≤ accumulated_s) :
    sampleLevels cfg reference_line level_distance fuel accumulated_s = [] := by
  cases fuel with
  | zero => rfl
  | succ n => rw [sampleLevels, if_neg (not_lt.mpr h)]

/- ## Lemmas: DP graph search -/

theorem sumEdges_nil (tc : QuinticPolynomialCurve1d → ℚ → ℚ → ℚ) :
    sumEdges tc [] = 0 := rfl

theorem sumEdges_single (tc : QuinticPolynomialCurve1d → ℚ → ℚ → ℚ)
    (a : DPRoadGraphNode) : sumEdges tc [a] = 0 := rfl

theorem sumEdges_cons_cons (tc : QuinticPolynomialCurve1d → ℚ → ℚ → ℚ)
    (a b : DPRoadGraphNode) (rest : List DPRoadGraphNode) :
    sumEdges tc (a :: b :: rest) =
      edgeCost tc a.sl_point b.sl_point + sumEdges tc (b :: rest) := rfl

theorem sumEdges_append_pair (tc : QuinticPolynomialCurve1d → ℚ → ℚ → ℚ)
    (xs : List DPRoadGraphNode) (b c : DPRoadGraphNode) :
    sumEdges tc (xs ++ [b, c]) =
      sumEdges tc (xs ++ [b]) + edgeCost tc b.sl_point c.sl_point := by
  induction xs with
  | nil =>
    simp [sumEdges_cons_cons, sumEdges_single, sumEdges_nil]
  | cons a t ih =>
    cases t with
    | nil =>
      simp only [List.cons_append, List.nil_append, sumEdges_cons_cons,
        sumEdges_single]
      ring
    | cons d t2 =>
      simp only [List.cons_append] at ih ⊢
      rw [sumEdges_cons_cons, sumEdges_cons_cons, ih]
      ring

theorem sumEdges_backtrack (tc : QuinticPolynomialCurve1d → ℚ → ℚ → ℚ)
    (n : DPRoadGraphNode) :
    sumEdges tc (backtrack n ++ [n]) = pathCost tc n := by
  induction n with
  | orphan sl c cu => simp [backtrack, pathCost, sumEdges_single]
  | linked sl p c cu ih =>
    rw [backtrack, pathCost, List.append_assoc]
    have h := sumEdges_append_pair tc (backtrack p) p (.linked sl p c cu)
    simp only [List.cons_append, List.nil_append] at h ⊢
    rw [h, ih]
    rfl

theorem min_cost_prev_node_backtrack (n p : DPRoadGraphNode)
    (h : n.min_cost_prev_node = some p) :
    backtrack n = backtrack p ++ [p] := by
  cases n with
  | orphan sl c cu => simp [DPRoadGraphNode.min_cost_prev_node] at h
  | linked sl q c cu =>
    simp only [DPRoadGraphNode.min_cost_prev_node, Option.some_inj] at h
    subst h
    rfl

theorem pathCost_of_prev (tc : QuinticPolynomialCurve1d → ℚ → ℚ → ℚ)
    (n p : DPRoadGraphNode) (h : n.min_cost_prev_node = some p) :
    pathCost tc n = pathCost tc p + edgeCost tc p.sl_point n.sl_point := by
  cases n with
  | orphan sl c cu => simp [DPRoadGraphNode.min_cost_prev_node] at h
  | linked sl q c cu =>
    simp only [DPRoadGraphNode.min_cost_prev_node, Option.some_inj] at h
    subst h
    rfl

theorem UpdateCost_min_cost (cur prev : DPRoadGraphNode)
    (curve : Option QuinticPolynomialCurve1d) (cost : WithTop ℚ) :
    (UpdateCost cur prev curve cost).min_cost = min cost cur.min_cost := by
  rw [UpdateCost]
  rcases lt_trichotomy cost cur.min_cost with h | h | h
  · rw [if_pos h, min_eq_left h.le]
    rfl
  · rw [if_neg (by rw [h]; exact lt_irrefl _), min_eq_right h.ge]
  · rw [if_neg (not_lt.mpr h.le), min_eq_right h.le]


/-- Shape invariant of the relaxation fold: the result keeps the initial
SL point, and either it was never updated (no predecessor, infinite cost)
or its predecessor is one of the folded nodes and its cost is exactly that
candidate's offered cost. -/
theorem foldl_UpdateCost_shape (g : DPRoadGraphNode → WithTop ℚ)
    (cv : DPRoadGraphNode → Option QuinticPolynomialCurve1d)
    (R : DPRoadGraphNode → Prop)
    (step : DPRoadGraphNode → DPRoadGraphNode → DPRoadGraphNode)
    (hstep : ∀ cur p, step cur p = UpdateCost cur p (cv p) (g p)) :
    ∀ (ps : List DPRoadGraphNode) (init : DPRoadGraphNode),
      (∀ p ∈ ps, R p) →
      (init.min_cost_prev_node = none ∧ init.min_cost = ⊤) ∨
        (∃ p, R p ∧ init.min_cost_prev_node = some p ∧ init.min_cost = g p) →
      (init.sl_point = (ps.foldl step init).sl_point) ∧
      (((ps.foldl step init).min_cost_prev_node = none ∧
          (ps.foldl step init).min_cost = ⊤) ∨
        (∃ p, R p ∧ (ps.foldl step init).min_cost_prev_node = some p ∧
          (ps.foldl step init).min_cost = g p)) := by
  intro ps
  induction ps with
  | nil => intro init _ hq; exact ⟨rfl, hq⟩
  | cons p0 t ih =>
    intro init hR hq
    simp only [List.foldl_cons]
    have hshape :
        (step init p0).sl_point = init.sl_point ∧
        (((step init p0).min_cost_prev_node = none ∧
            (step init p0).min_cost = ⊤) ∨
          (∃ p, R p ∧ (step init p0).min_cost_prev_node = some p ∧
            (step init p0).min_cost = g p)) := by
      rw [hstep, UpdateCost]
      by_cases hlt : g p0 < init.min_cost
      · rw [if_pos hlt]
        exact ⟨rfl, Or.inr ⟨p0, hR p0 (List.mem_cons_self p0 t), rfl, rfl⟩⟩
      · rw [if_neg hlt]
        exact ⟨rfl, hq⟩
    have := ih (step init p0)
      (fun p hp => hR p (List.mem_cons_of_mem p0 hp)) hshape.2
    exact ⟨hshape.1.symm.trans this.1, this.2⟩

/-- The relaxation fold's resulting cost is a lower bound of every
candidate's offered cost. -/
theorem foldl_UpdateCost_le (g : DPRoadGraphNode → WithTop ℚ)
    (cv : DPRoadGraphNode → Option QuinticPolynomialCurve1d)
    (step : DPRoadGraphNode → DPRoadGraphNode → DPRoadGraphNode)
    (hstep : ∀ cur p, step cur p = UpdateCost cur p (cv p) (g p)) :
    ∀ (ps : List DPRoadGraphNode) (init : DPRoadGraphNode),
      (ps.foldl step init).min_cost ≤ init.min_cost ∧
        ∀ p ∈ ps, (ps.foldl step init).min_cost ≤ g p := by
  intro ps
  induction ps with
  | nil => intro init; exact ⟨le_refl _, by simp⟩
  | cons p0 t ih =>
    intro init
    simp only [List.foldl_cons]
    obtain ⟨h1, h2⟩ := ih (step init p0)
    have hmin : (step init p0).min_cost = min (g p0) init.min_cost := by
      rw [hstep]
      exact UpdateCost_min_cost init p0 (cv p0) (g p0)
    constructor
    · exact h1.trans (by rw [hmin]; exact min_le_right _ _)
    · intro p hp
      rcases List.mem_cons.mp hp with rfl | hp
      · exact h1.trans (by rw [hmin]; exact min_le_left _ _)
      · exact h2 p hp

/-- Relaxing a candidate against a non-empty, cost-consistent previous
level yields a node whose stored cost equals the recomputed cost of its
backtracked predecessor chain. -/
theorem relaxNode_consistent (tc : QuinticPolynomialCurve1d → ℚ → ℚ → ℚ)
    (prev_dp_nodes : List DPRoadGraphNode) (cur_sl_point : SLPoint)
    (hne : prev_dp_nodes ≠ [])
    (hcons : ∀ p ∈ prev_dp_nodes,
      p.min_cost = ((pathCost tc p : ℚ) : WithTop ℚ)) :
    (relaxNode tc prev_dp_nodes cur_sl_point).min_cost =
      ((pathCost tc (relaxNode tc prev_dp_nodes cur_sl_point) : ℚ) :
        WithTop ℚ) := by
  have key := foldl_UpdateCost_shape
    (fun p => ((edgeCost tc p.sl_point cur_sl_point : ℚ) : WithTop ℚ) +
      p.min_cost)
    (fun p => some (mkZeroDerivCurve p.sl_point.l cur_sl_point.l
      (cur_sl_point.s - p.sl_point.s)))
    (fun p => p ∈ prev_dp_nodes)
    (fun cur_node prev_dp_node => UpdateCost cur_node prev_dp_node
      (some (mkZeroDerivCurve prev_dp_node.sl_point.l cur_sl_point.l
        (cur_sl_point.s - prev_dp_node.sl_point.s)))
      ((edgeCost tc prev_dp_node.sl_point cur_sl_point : ℚ) +
        prev_dp_node.min_cost))
    (fun cur p => rfl) prev_dp_nodes (.orphan cur_sl_point ⊤ none)
    (fun p hp => hp) (Or.inl ⟨rfl, rfl⟩)
  have hle := foldl_UpdateCost_le
    (fun p => ((edgeCost tc p.sl_point cur_sl_point : ℚ) : WithTop ℚ) +
      p.min_cost)
    (fun p => some (mkZeroDerivCurve p.sl_point.l cur_sl_point.l
      (cur_sl_point.s - p.sl_point.s)))
    (fun cur_node prev_dp_node => UpdateCost cur_node prev_dp_node
      (some (mkZeroDerivCurve prev_dp_node.sl_point.l cur_sl_point.l
        (cur_sl_point.s - prev_dp_node.sl_point.s)))
      ((edgeCost tc prev_dp_node.sl_point cur_sl_point : ℚ) +
        prev_dp_node.min_cost))
    (fun cur p => rfl) prev_dp_nodes (.orphan cur_sl_point ⊤ none)
  simp only [] at key hle
  unfold relaxNode
  obtain ⟨hsl, hcase⟩ := key
  rcases hcase with ⟨_, htop⟩ | ⟨p, hpmem, hprev, hcost⟩
  · exfalso
    obtain ⟨p0, hp0⟩ := List.exists_mem_of_ne_nil prev_dp_nodes hne
    have hb := hle.2 p0 hp0
    rw [htop, hcons p0 hp0, ← WithTop.coe_add] at hb
    exact (WithTop.coe_lt_top _).not_le hb
  · rw [hcost, hcons p hpmem, pathCost_of_prev tc _ p hprev, ← hsl]
    rw [← WithTop.coe_add]
    norm_cast
    show edgeCost tc p.sl_point cur_sl_point + pathCost tc p =
      pathCost tc p + edgeCost tc p.sl_point cur_sl_point
    ring

/-- Every node of every processed level is cost-consistent, and the last
processed level of a lattice with no empty level is non-empty. -/
theorem runLevels_consistent (tc : QuinticPolynomialCurve1d → ℚ → ℚ → ℚ) :
    ∀ (path_waypoints : List (List SLPoint)) (prev : List DPRoadGraphNode),
      prev ≠ [] →
      (∀ p ∈ prev, p.min_cost = ((pathCost tc p : ℚ) : WithTop ℚ)) →
      (∀ lvl ∈ path_waypoints, lvl ≠ []) →
      runLevels tc prev path_waypoints ≠ [] ∧
        ∀ n ∈ runLevels tc prev path_waypoints,
          n.min_cost = ((pathCost tc n : ℚ) : WithTop ℚ) := by
  intro path_waypoints
  induction path_waypoints with
  | nil => intro prev hne hcons _; exact ⟨hne, hcons⟩
  | cons lvl rest ih =>
    intro prev hne hcons hlvl
    rw [runLevels]
    apply ih
    · intro hmap
      exact hlvl lvl (List.mem_cons_self lvl rest) (List.map_eq_nil_iff.mp hmap)
    · intro n hn
      obtain ⟨slp, _, rfl⟩ := List.mem_map.mp hn
      exact relaxNode_consistent tc prev slp hne hcons
    · intro l hl
      exact hlvl l (List.mem_cons_of_mem lvl hl)

/-- The sink aggregation over a non-empty cost-consistent last level picks
one of its nodes as the best-reaching predecessor and copies its cost,
adding nothing. -/
theorem aggregateSink_spec (tc : QuinticPolynomialCurve1d → ℚ → ℚ → ℚ)
    (last_dp_nodes : List DPRoadGraphNode) (hne : last_dp_nodes ≠ [])
    (hcons : ∀ n ∈ last_dp_nodes,
      n.min_cost = ((pathCost tc n : ℚ) : WithTop ℚ)) :
    ∃ p ∈ last_dp_nodes,
      (aggregateSink last_dp_nodes).min_cost_prev_node = some p ∧
        (aggregateSink last_dp_nodes).min_cost = p.min_cost := by
  have key := foldl_UpdateCost_shape
    (fun n => n.min_cost)
    (fun n => n.min_cost_curve)
    (fun n => n ∈ last_dp_nodes)
    (fun fake_head cur_dp_node => UpdateCost fake_head cur_dp_node
      cur_dp_node.min_cost_curve cur_dp_node.min_cost)
    (fun cur p => rfl) last_dp_nodes (.orphan ⟨0, 0⟩ ⊤ none)
    (fun p hp => hp) (Or.inl ⟨rfl, rfl⟩)
  have hle := foldl_UpdateCost_le
    (fun n => n.min_cost)
    (fun n => n.min_cost_curve)
    (fun fake_head cur_dp_node => UpdateCost fake_head cur_dp_node
      cur_dp_node.min_cost_curve cur_dp_node.min_cost)
    (fun cur p => rfl) last_dp_nodes (.orphan ⟨0, 0⟩ ⊤ none)
  simp only [] at key hle
  unfold aggregateSink
  rcases key.2 with ⟨_, htop⟩ | ⟨p, hpmem, hprev, hcost⟩
  · exfalso
    obtain ⟨p0, hp0⟩ := List.exists_mem_of_ne_nil last_dp_nodes hne
    have hb := hle.2 p0 hp0
    rw [htop, hcons p0 hp0] at hb
    exact (WithTop.coe_lt_top _).not_le hb
  · exact ⟨p, hpmem, hprev, hcost⟩

/- ## Lemmas: path stitcher -/

theorem stitchLoopF_eq (path_resolution path_length : ℚ)
    (hres : 0 < path_resolution) :
    ∀ (fuel : ℕ) (current_s : ℚ),
      ⌈(path_length - current_s) / path_resolution⌉.toNat ≤ fuel →
      stitchLoopF path_resolution path_length fuel current_s =
        (List.range ⌈(path_length - current_s) / path_resolution⌉.toNat).map
          (fun (k : ℕ) => current_s + k * path_resolution) := by
  intro fuel
  induction fuel with
  | zero =>
    intro current_s hc
    rw [Nat.le_zero.mp hc]
    rfl
  | succ f ih =>
    intro current_s hc
    by_cases hlt : current_s < path_length
    · have hpos : 0 < (path_length - current_s) / path_resolution :=
        div_pos (by linarith) hres
      have hceil : 0 < ⌈(path_length - current_s) / path_resolution⌉ :=
        Int.ceil_pos.mpr hpos
      have hnext : (path_length - (current_s + path_resolution)) /
          path_resolution =
          (path_length - current_s) / path_resolution - 1 := by
        field_simp
        ring
      have hceil_next :
          ⌈(path_length - (current_s + path_resolution)) / path_resolution⌉ =
            ⌈(path_length - current_s) / path_resolution⌉ - 1 := by
        rw [hnext, Int.ceil_sub_one]
      have htonat :
          ⌈(path_length - (current_s + path_resolution)) /
            path_resolution⌉.toNat =
            ⌈(path_length - current_s) / path_resolution⌉.toNat - 1 := by
        rw [hceil_next]
        omega
      have hle :
          ⌈(path_length - (current_s + path_resolution)) /
            path_resolution⌉.toNat ≤ f := by
        rw [htonat]
        omega
      rw [stitchLoopF, if_pos hlt, ih (current_s + path_resolution) hle,
        htonat]
      have hcnt : ⌈(path_length - current_s) / path_resolution⌉.toNat =
          (⌈(path_length - current_s) / path_resolution⌉.toNat - 1) + 1 := by
        omega
      rw [hcnt, List.range_succ_eq_map, List.map_cons, List.map_map]
      congr 1
      · push_cast
        ring
      · apply List.map_congr_left
        intro k _
        simp only [Function.comp_apply]
        push_cast
        ring
    · have hnp : (path_length - current_s) / path_resolution ≤ 0 :=
        div_nonpos_of_nonpos_of_nonneg (by linarith) hres.le
      have : ⌈(path_length - current_s) / path_resolution⌉.toNat = 0 := by
        have h0 : ⌈(path_length - current_s) / path_resolution⌉ ≤ (0 : ℤ) :=
          Int.ceil_le.mpr (by exact_mod_cast hnp)
        omega
      rw [this, stitchLoopF, if_neg hlt]
      rfl

theorem stitchLocal_eq (path_resolution path_length : ℚ)
    (hres : 0 < path_resolution) :
    stitchLocal path_resolution path_length =
      (List.range ⌈path_length / path_resolution⌉.toNat).map
        (fun (k : ℕ) => (k : ℚ) * path_resolution) := by
  rw [stitchLocal, stitchLoopF_eq path_resolution path_length hres _ 0
    (by rw [sub_zero]; omega)]
  rw [sub_zero]
  apply List.map_congr_left
  intro k _
  ring

theorem mem_stitchLocal (path_resolution path_length x : ℚ)
    (hres : 0 < path_resolution) :
    x ∈ stitchLocal path_resolution path_length ↔
      ∃ k : ℕ, x = k * path_resolution ∧ x < path_length := by
  rw [stitchLocal_eq path_resolution path_length hres]
  simp only [List.mem_map, List.mem_range]
  constructor
  · rintro ⟨k, hk, rfl⟩
    refine ⟨k, rfl, ?_⟩
    have hz : (k : ℤ) < ⌈path_length / path_resolution⌉ := Int.lt_toNat.mp hk
    have hq : (k : ℚ) < path_length / path_resolution := Int.lt_ceil.mp hz
    calc (k : ℚ) * path_resolution
        < path_length / path_resolution * path_resolution := by
          exact mul_lt_mul_of_pos_right hq hres
      _ = path_length := div_mul_cancel₀ path_length hres.ne.symm
  · rintro ⟨k, rfl, hlt⟩
    refine ⟨k, ?_, rfl⟩
    have hq : (k : ℚ) < path_length / path_resolution :=
      (lt_div_iff₀ hres).mpr hlt
    have hz : (k : ℤ) < ⌈path_length / path_resolution⌉ := Int.lt_ceil.mpr hq
    exact Int.lt_toNat.mpr hz

/- ## Lemmas: Cartesian conversion -/

theorem sChained_append_single (norm : Vec2 → ℚ) (b : PathPoint) :
    ∀ (acc : List PathPoint),
      sChained norm acc →
      (∀ last, acc.getLast? = some last →
        b.s = last.s + norm ⟨last.x - b.x, last.y - b.y⟩) →
      sChained norm (acc ++ [b]) := by
  intro acc
  induction acc with
  | nil => intro _ _; trivial
  | cons a t ih =>
    cases t with
    | nil =>
      intro _ hlast
      exact ⟨hlast a rfl, trivial⟩
    | cons a2 t2 =>
      intro hch hlast
      refine ⟨hch.1, ih hch.2 ?_⟩
      intro last hl
      exact hlast last (by rw [List.getLast?_cons_cons]; exact hl)

theorem convertLoop_invariant (ext : Externals)
    (reference_line : ReferenceLine) :
    ∀ (fps : List FrenetFramePoint) (acc pts : List PathPoint),
      convertLoop ext reference_line acc fps = some pts →
      sChained ext.vec2Length acc →
      (∀ p0, acc.head? = some p0 → p0.s = 0) →
      (∀ p0, pts.head? = some p0 → p0.s = 0) ∧
        sChained ext.vec2Length pts := by
  intro fps
  induction fps with
  | nil =>
    intro acc pts h hch hhead
    rw [convertLoop, Option.some_inj] at h
    subst h
    exact ⟨hhead, hch⟩
  | cons fp rest ih =>
    intro acc pts h hch hhead
    rw [convertLoop] at h
    rcases hc : reference_line.get_point_in_Cartesian_frame ⟨fp.s, fp.l⟩ with
      _ | cartesian_point
    · rw [hc] at h
      exact absurd h (by simp)
    · rw [hc] at h
      simp only [] at h
      apply ih _ pts h
      · rcases hlast : acc.getLast? with _ | last
        · have hnil : acc = [] := List.getLast?_eq_none_iff.mp hlast
          subst hnil
          exact trivial
        · apply sChained_append_single ext.vec2Length _ acc hch
          intro last' hl'
          rw [hlast, Option.some_inj] at hl'
          subst hl'
          rfl
      · intro p0 hp0
        rcases acc with _ | ⟨a, t⟩
        · simp only [List.nil_append, List.head?_cons, Option.some_inj] at hp0
          subst hp0
          rfl
        · rw [List.cons_append, List.head?_cons, Option.some_inj] at hp0
          exact hhead p0 (by rw [List.head?_cons, hp0])

/- ## Lemmas: obstacle decision engine -/

theorem staticScan_skip (fl : PlanningFlags) (has_overlap : Box2d → Bool)
    (obs_half_length : ℚ) (obs_sl : SLPoint) (sample : EgoSample)
    (rest : List EgoSample)
    (h : ¬ firesBranch fl has_overlap obs_half_length obs_sl sample) :
    staticScan fl has_overlap obs_half_length obs_sl (sample :: rest) =
      staticScan fl has_overlap obs_half_length obs_sl rest := by
  rw [firesBranch, not_and_or, not_not] at h
  rw [staticScan]
  by_cases hrange : sample.ego_sl.s < obs_sl.s - obs_half_length ∨
      sample.ego_sl.s > obs_sl.s + obs_half_length
  · rw [if_pos hrange]
  · rcases h with h | h
    · exact absurd h (by exact hrange)
    · rw [not_or, not_or] at h
      obtain ⟨hstop, hnr, hnl⟩ := h
      rw [if_neg hrange, if_neg hstop, if_neg hnr, if_neg hnl]

theorem staticScan_none (fl : PlanningFlags) (has_overlap : Box2d → Bool)
    (obs_half_length : ℚ) (obs_sl : SLPoint) :
    ∀ (samples : List EgoSample),
      (∀ x ∈ samples, ¬ firesBranch fl has_overlap obs_half_length obs_sl x) →
      staticScan fl has_overlap obs_half_length obs_sl samples = none := by
  intro samples
  induction samples with
  | nil => intro _; rfl
  | cons a t ih =>
    intro hall
    rw [staticScan_skip fl has_overlap obs_half_length obs_sl a t
      (hall a (List.mem_cons_self a t))]
    exact ih (fun x hx => hall x (List.mem_cons_of_mem a hx))

theorem staticScan_stop_at (fl : PlanningFlags) (has_overlap : Box2d → Bool)
    (obs_half_length : ℚ) (obs_sl : SLPoint) :
    ∀ (pre : List EgoSample) (sample : EgoSample),
      (∀ x ∈ pre, ¬ firesBranch fl has_overlap obs_half_length obs_sl x) →
      ¬(sample.ego_sl.s < obs_sl.s - obs_half_length ∨
          sample.ego_sl.s > obs_sl.s + obs_half_length) →
      (has_overlap sample.box = true ∧
        |obs_sl.l| < fl.static_decision_stop_buffer) →
      ∀ (post : List EgoSample),
        staticScan fl has_overlap obs_half_length obs_sl
            (pre ++ sample :: post) =
          some (.stop fl.dp_path_decision_buffer .STOP_REASON_OBSTACLE) := by
  intro pre
  induction pre with
  | nil =>
    intro sample _ hrange hstop post
    rw [List.nil_append, staticScan, if_neg hrange, if_pos hstop]
  | cons a t ih =>
    intro sample hall hrange hstop post
    rw [List.cons_append, staticScan_skip fl has_overlap obs_half_length
      obs_sl a _ (hall a (List.mem_cons_self a t))]
    exact ih sample (fun x hx => hall x (List.mem_cons_of_mem a hx)) hrange
      hstop post

theorem followScan_first_hit (fl : PlanningFlags) (dist : Box2d → Box2d → ℚ) :
    ∀ (pre : List (Box2d × Box2d)) (p : Box2d × Box2d),
      (∀ x ∈ pre, ¬ dist x.1 x.2 < fl.dynamic_decision_follow_range) →
      dist p.1 p.2 < fl.dynamic_decision_follow_range →
      ∀ (post : List (Box2d × Box2d)),
        followScan fl dist (pre ++ p :: post) =
          [.follow fl.dp_path_decision_buffer] := by
  intro pre
  induction pre with
  | nil =>
    intro p _ hp post
    rw [List.nil_append]
    rcases p with ⟨e, o⟩
    rw [followScan, if_pos hp]
  | cons a t ih =>
    intro p hall hp post
    rw [List.cons_append]
    rcases a with ⟨e, o⟩
    rw [followScan, if_neg (hall ⟨e, o⟩ (List.mem_cons_self _ t))]
    exact ih p (fun x hx => hall x (List.mem_cons_of_mem _ hx)) hp post

theorem followScan_of_exists (fl : PlanningFlags) (dist : Box2d → Box2d → ℚ) :
    ∀ (pairs : List (Box2d × Box2d)),
      (∃ pr ∈ pairs, dist pr.1 pr.2 < fl.dynamic_decision_follow_range) →
      followScan fl dist pairs = [.follow fl.dp_path_decision_buffer] := by
  intro pairs
  induction pairs with
  | nil => rintro ⟨pr, hmem, _⟩; simp at hmem
  | cons a t ih =>
    rintro ⟨pr, hmem, hlt⟩
    rcases a with ⟨e, o⟩
    by_cases hhit : dist e o < fl.dynamic_decision_follow_range
    · rw [followScan, if_pos hhit]
    · rw [followScan, if_neg hhit]
      apply ih
      rcases List.mem_cons.mp hmem with rfl | hmem
      · exact absurd hlt hhit
      · exact ⟨pr, hmem, hlt⟩

theorem fill_ego_by_time_length (cfg : DpPolyPathConfig) (env : EgoByTimeEnv)
    (evaluate_times : ℕ) :
    ∀ (fuel i : ℕ), evaluate_times - i ≤ fuel →
      (fill_ego_by_time cfg env evaluate_times i).1.length ≤
        evaluate_times - i := by
  intro fuel
  induction fuel with
  | zero =>
    intro i h0
    unfold fill_ego_by_time
    have hni : ¬ i < evaluate_times := by omega
    rw [if_neg hni]
    simp
  | succ f ih =>
    intro i hle
    unfold fill_ego_by_time
    by_cases hi : i < evaluate_times
    · rw [if_pos hi]
      rcases hsp : env.get_speed_point_with_time (i * cfg.eval_time_interval)
        with _ | sp
      · simp
      · simp only []
        have hrec := ih (i + 1) (by omega)
        simp only [List.length_cons]
        omega
    · rw [if_neg hi]
      simp

/- ## Claim theorems -/

/-- C9: whenever the initial vehicle position cannot be projected onto the
reference line, FindPathTunnel returns failure and the output path
container is left completely unmodified. -/
theorem claim_C9_init_projection_failure (ext : Externals)
    (cfg : DpPolyPathConfig) (reference_line : ReferenceLine)
    (init_point : TrajectoryPoint) (path_data : PathData)
    (hproj : reference_line.get_point_in_frenet_frame
      ⟨init_point.x, init_point.y⟩ = none) :
    FindPathTunnel ext cfg reference_line init_point path_data =
      (false, path_data) := by
  rw [FindPathTunnel, hproj]

theorem claim_C9_witness :
    FindPathTunnel
      ⟨fun _ _ _ => 0, fun _ _ _ => 0, fun _ => 0, fun _ _ _ _ => 0,
        fun _ _ _ _ _ => 0⟩
      ⟨1, 1, 1, 1, 1, 1, 1⟩
      ⟨fun _ => none, fun _ => some ⟨0, 0⟩, fun _ => ⟨0, 0, 0⟩,
        fun _ => true, 10⟩
      ⟨0, 0, 0, 1⟩ ⟨none, none⟩ =
      (false, ⟨none, none⟩) :=
  claim_C9_init_projection_failure _ _ _ _ _ rfl

/-- C10: for every dynamic obstacle and every evaluate_times, the
obstacle-by-time series has evaluate_times + 1 entries while the
ego-by-time series has at most evaluate_times entries, so the sizes never
match, the skip branch is taken, and no decision is appended for any
dynamic obstacle. -/
theorem claim_C10_dynamic_series_never_match (fl : PlanningFlags)
    (cfg : DpPolyPathConfig) (env : EgoByTimeEnv)
    (dist : Box2d → Box2d → ℚ) (obstacle_box_at : ℚ → Box2d)
    (evaluate_times : ℕ) :
    (fill_ego_by_time cfg env evaluate_times 0).1.length ≤ evaluate_times ∧
    (obstacleByTime cfg obstacle_box_at evaluate_times).length =
      evaluate_times + 1 ∧
    dynamicObstacleDecisions fl cfg env dist obstacle_box_at
      evaluate_times = [] := by
  have hego : (fill_ego_by_time cfg env evaluate_times 0).1.length ≤
      evaluate_times := by
    have := fill_ego_by_time_length cfg env evaluate_times evaluate_times 0
      (by omega)
    omega
  have hobs : (obstacleByTime cfg obstacle_box_at evaluate_times).length =
      evaluate_times + 1 := by
    rw [obstacleByTime, List.length_map, List.length_range]
  refine ⟨hego, hobs, ?_⟩
  rw [dynamicObstacleDecisions, dynamicJudge, if_pos]
  rw [hobs]
  omega

/-- C6: every point of every level emitted by the sampler is on the road,
the lateral offsets considered are exactly `j * lateral_sample_offset` for
`j` in `[-num, num]` with `num = sample_points_num_each_level / 2`, and no
emitted level is empty. -/
theorem claim_C6_sampler_road_legal (cfg : DpPolyPathConfig)
    (reference_line : ReferenceLine) (init_point : TrajectoryPoint)
    (levels : List (List SLPoint))
    (h : SamplePathWaypoints cfg reference_line init_point = some levels) :
    ∀ lvl ∈ levels,
      lvl ≠ [] ∧
      (∀ q ∈ lvl, reference_line.is_on_road q = true) ∧
      ∃ s, ∀ q, q ∈ lvl ↔
        (reference_line.is_on_road q = true ∧
          ∃ j : ℤ, -((cfg.sample_points_num_each_level / 2 : ℕ) : ℤ) ≤ j ∧
            j ≤ ((cfg.sample_points_num_each_level / 2 : ℕ) : ℤ) ∧
            q = SLPoint.mk s (cfg.lateral_sample_offset * (j : ℚ))) := by
  intro lvl hlvl
  rw [SamplePathWaypoints] at h
  rcases hproj : reference_line.get_point_in_frenet_frame
      ⟨init_point.x, init_point.y⟩ with _ | init_sl_point
  · rw [hproj] at h
    exact absurd h (by simp)
  · rw [hproj] at h
    simp only [Option.some_inj] at h
    subst h
    obtain ⟨s, rfl, hne⟩ := sampleLevels_mem cfg reference_line _ _ _ lvl hlvl
    refine ⟨hne, ?_, s, ?_⟩
    · intro q hq
      exact ((mem_levelPoints cfg reference_line s q).mp hq).1
    · intro q
      rw [mem_levelPoints]
      constructor
      · rintro ⟨hroad, j, hj, rfl⟩
        obtain ⟨h1, h2⟩ := (mem_levelLateralIndices cfg j).mp hj
        exact ⟨hroad, j, h1, h2, rfl⟩
      · rintro ⟨hroad, j, h1, h2, rfl⟩
        exact ⟨hroad, j, (mem_levelLateralIndices cfg j).mpr ⟨h1, h2⟩, rfl⟩

theorem claim_C6_witness :
    ([(⟨1, 0⟩ : SLPoint)] : List SLPoint) ≠ [] ∧
    (∀ q ∈ ([(⟨1, 0⟩ : SLPoint)] : List SLPoint), (true : Bool) = true) := by
  have h := claim_C6_sampler_road_legal
    ⟨1, 1, 1, 1, 1, 1, 1⟩
    ⟨fun _ => some ⟨0, 0⟩, fun _ => some ⟨0, 0⟩, fun _ => ⟨0, 0, 0⟩,
      fun _ => true, 10⟩
    ⟨0, 0, 0, 1⟩ [[⟨1, 0⟩]]
    (by
      rw [SamplePathWaypoints]
      simp only [Option.some_inj]
      norm_num [fmax, fmin, sampleLevels, levelPoints, levelLateralIndices,
        List.range_succ])
    [⟨1, 0⟩] (by decide)
  exact ⟨h.1, fun q _ => rfl⟩

/-- C8: for every non-empty Cartesian path emitted by the conversion loop,
the first point's arc length is 0 and every subsequent point's arc length
is the previous one plus the collaborator norm of the difference of the
two consecutive Cartesian positions; it is never copied from the Frenet
`s` (the conclusion holds for all Frenet inputs alike). -/
theorem claim_C8_running_arc_length (ext : Externals)
    (reference_line : ReferenceLine) (frenet_path : List FrenetFramePoint)
    (path_points : List PathPoint)
    (h : convertLoop ext reference_line [] frenet_path = some path_points) :
    (∀ p0, path_points.head? = some p0 → p0.s = 0) ∧
      sChained ext.vec2Length path_points := by
  exact convertLoop_invariant ext reference_line frenet_path [] path_points h
    trivial (fun p0 hp0 => by simp at hp0)

theorem claim_C8_witness :
    (∀ p0, ([(⟨0, 0, 0, 0, 0⟩ : PathPoint)] : List PathPoint).head? = some p0 →
      p0.s = 0) ∧
    sChained (fun _ => 0) [(⟨0, 0, 0, 0, 0⟩ : PathPoint)] :=
  claim_C8_running_arc_length
    ⟨fun _ _ _ => 0, fun _ _ _ => 0, fun _ => 0, fun _ _ _ _ => 0,
      fun _ _ _ _ _ => 0⟩
    ⟨fun _ => some ⟨0, 0⟩, fun _ => some ⟨0, 0⟩, fun _ => ⟨0, 0, 0⟩,
      fun _ => true, 10⟩
    [⟨0, 0, 0, 0⟩] [⟨0, 0, 0, 0, 0⟩] rfl

/-- C1: in the dynamic-obstacle collision judgement, whenever the two box
series have equal length and some matched pair's distance is below the
follow range, exactly one Follow decision (with the fixed buffer distance)
is appended, and the scan result is already determined at the first
below-range pair — samples after it are never consulted. -/
theorem claim_C1_follow_decision (fl : PlanningFlags)
    (dist : Box2d → Box2d → ℚ) (ego_by_time obstacle_by_time : List Box2d)
    (hlen : obstacle_by_time.length = ego_by_time.length)
    (hhit : ∃ pr ∈ ego_by_time.zip obstacle_by_time,
      dist pr.1 pr.2 < fl.dynamic_decision_follow_range) :
    dynamicJudge fl dist ego_by_time obstacle_by_time =
      [.follow fl.dp_path_decision_buffer] ∧
    ∀ (pre : List (Box2d × Box2d)) (p : Box2d × Box2d)
        (post post' : List (Box2d × Box2d)),
      ego_by_time.zip obstacle_by_time = pre ++ p :: post →
      (∀ x ∈ pre, ¬ dist x.1 x.2 < fl.dynamic_decision_follow_range) →
      dist p.1 p.2 < fl.dynamic_decision_follow_range →
      followScan fl dist (pre ++ p :: post') =
        [.follow fl.dp_path_decision_buffer] := by
  constructor
  · rw [dynamicJudge, if_neg (by rw [hlen]; exact fun hne => hne rfl)]
    exact followScan_of_exists fl dist _ hhit
  · intro pre p post post' _ hpre hp
    exact followScan_first_hit fl dist pre p hpre hp post'

theorem claim_C1_witness :
    dynamicJudge ⟨1, 1, 1, 1, 1⟩ (fun _ _ => 0)
      [(⟨⟨0, 0⟩, 0, 1, 1⟩ : Box2d)] [(⟨⟨0, 0⟩, 0, 1, 1⟩ : Box2d)] =
      [.follow 1] :=
  (claim_C1_follow_decision ⟨1, 1, 1, 1, 1⟩ (fun _ _ => 0)
    [⟨⟨0, 0⟩, 0, 1, 1⟩] [⟨⟨0, 0⟩, 0, 1, 1⟩] rfl
    ⟨(⟨⟨0, 0⟩, 0, 1, 1⟩, ⟨⟨0, 0⟩, 0, 1, 1⟩), by decide, by decide⟩).1

/-- C5: for every static obstacle exactly one decision is appended per
planning cycle; if the first sample that fires a decision branch is
in range, has bounding-box overlap, and the obstacle's lateral offset is
below the stop buffer, that single decision is Stop (fixed buffer
distance, obstacle reason) and the scan halts there — samples after it
never affect the result; if no sample ever fires a branch, the single
decision is Ignore. -/
theorem claim_C5_static_single_decision (fl : PlanningFlags)
    (has_overlap : Box2d → Bool) (obs_half_length : ℚ) (obs_sl : SLPoint)
    (samples : List EgoSample) :
    (staticObstacleDecisions fl has_overlap obs_half_length obs_sl
      samples).length = 1 ∧
    (∀ (pre : List EgoSample) (sample : EgoSample) (post : List EgoSample),
      samples = pre ++ sample :: post →
      (∀ x ∈ pre, ¬ firesBranch fl has_overlap obs_half_length obs_sl x) →
      ¬(sample.ego_sl.s < obs_sl.s - obs_half_length ∨
          sample.ego_sl.s > obs_sl.s + obs_half_length) →
      (has_overlap sample.box = true ∧
        |obs_sl.l| < fl.static_decision_stop_buffer) →
      staticObstacleDecisions fl has_overlap obs_half_length obs_sl samples =
          [.stop fl.dp_path_decision_buffer .STOP_REASON_OBSTACLE] ∧
        ∀ (post' : List EgoSample),
          staticScan fl has_overlap obs_half_length obs_sl
              (pre ++ sample :: post') =
            some (.stop fl.dp_path_decision_buffer .STOP_REASON_OBSTACLE)) ∧
    ((∀ x ∈ samples, ¬ firesBranch fl has_overlap obs_half_length obs_sl x) →
      staticObstacleDecisions fl has_overlap obs_half_length obs_sl samples =
        [.ignore]) := by
  refine ⟨?_, ?_, ?_⟩
  · rw [staticObstacleDecisions]
    rcases staticScan fl has_overlap obs_half_length obs_sl samples with
      _ | d <;> rfl
  · intro pre sample post hsplit hpre hrange hstop
    have hscan := staticScan_stop_at fl has_overlap obs_half_length obs_sl
      pre sample hpre hrange hstop
    constructor
    · rw [staticObstacleDecisions, hsplit, hscan post]
    · exact hscan
  · intro hall
    rw [staticObstacleDecisions,
      staticScan_none fl has_overlap obs_half_length obs_sl samples hall]

theorem claim_C5_witness :
    staticObstacleDecisions ⟨1, 1, 1, 1, 1⟩ (fun _ => true) 1 ⟨0, 0⟩
        [⟨⟨0, 0⟩, ⟨⟨0, 0⟩, 0, 1, 1⟩⟩] =
      [.stop 1 .STOP_REASON_OBSTACLE] ∧
    staticObstacleDecisions ⟨1, 1, 1, 1, 1⟩ (fun _ => false) 1 ⟨5, 0⟩ [] =
      [.ignore] := by
  constructor
  · exact ((claim_C5_static_single_decision ⟨1, 1, 1, 1, 1⟩ (fun _ => true) 1
      ⟨0, 0⟩ [⟨⟨0, 0⟩, ⟨⟨0, 0⟩, 0, 1, 1⟩⟩]).2.1 [] ⟨⟨0, 0⟩, ⟨⟨0, 0⟩, 0, 1, 1⟩⟩
      [] rfl (by simp) (by norm_num) (by norm_num)).1
  · exact (claim_C5_static_single_decision ⟨1, 1, 1, 1, 1⟩ (fun _ => false) 1
      ⟨5, 0⟩ []).2.2 (by simp)

/-- C4: for every lattice with no empty level, after the forward DP
relaxation and the sink aggregation (which adds no extra cost), the
recomputed cost of the backtracked root-to-goal chain — the sum of its
edge costs `Evaluate(curve, p.s, n.s)` — equals the sink's aggregated
`min_cost`. -/
theorem claim_C4_backtracked_chain_cost
    (tc : QuinticPolynomialCurve1d → ℚ → ℚ → ℚ) (init_sl_point : SLPoint)
    (path_waypoints : List (List SLPoint))
    (hne : ∀ lvl ∈ path_waypoints, lvl ≠ []) :
    ((sumEdges tc (generateMinCostPath tc init_sl_point path_waypoints) : ℚ) :
        WithTop ℚ) =
      (aggregateSink
        (generateGraphLastLevel tc init_sl_point path_waypoints)).min_cost := by
  have hroot : ∀ p ∈ [rootNode init_sl_point],
      p.min_cost = ((pathCost tc p : ℚ) : WithTop ℚ) := by
    intro p hp
    rcases List.mem_singleton.mp hp with rfl
    show (0 : WithTop ℚ) = ((0 : ℚ) : WithTop ℚ)
    norm_cast
  obtain ⟨hlast_ne, hlast_cons⟩ := runLevels_consistent tc path_waypoints
    [rootNode init_sl_point] (by simp) hroot hne
  obtain ⟨p, hpmem, hprev, hcost⟩ := aggregateSink_spec tc
    (runLevels tc [rootNode init_sl_point] path_waypoints) hlast_ne hlast_cons
  rw [generateMinCostPath, generateGraphLastLevel,
    min_cost_prev_node_backtrack _ p hprev, sumEdges_backtrack, hcost,
    hlast_cons p hpmem]

theorem claim_C4_witness :
    (∀ lvl ∈ [[(⟨1, 0⟩ : SLPoint)], [(⟨2, 0⟩ : SLPoint), (⟨2, 1⟩ : SLPoint)]],
      lvl ≠ []) ∧
    ((sumEdges (fun _ s1 s2 => s2 - s1)
        (generateMinCostPath (fun _ s1 s2 => s2 - s1) ⟨0, 0⟩
          [[⟨1, 0⟩], [⟨2, 0⟩, ⟨2, 1⟩]]) : ℚ) : WithTop ℚ) =
      (aggregateSink
        (generateGraphLastLevel (fun _ s1 s2 => s2 - s1) ⟨0, 0⟩
          [[⟨1, 0⟩], [⟨2, 0⟩, ⟨2, 1⟩]])).min_cost :=
  ⟨by decide,
    claim_C4_backtracked_chain_cost (fun _ s1 s2 => s2 - s1) ⟨0, 0⟩
      [[⟨1, 0⟩], [⟨2, 0⟩, ⟨2, 1⟩]] (by decide)⟩

/-- C7: for every consecutive node pair of the chain, the stitcher emits
Frenet samples exactly at the local arc lengths `k * path_resolution` that
are strictly less than the segment length (the segment endpoint itself is
never emitted), each at global arc length `accumulated_s + local_s`, and
the accumulator is advanced by the full segment length for the rest of the
chain regardless of how many samples were emitted. -/
theorem claim_C7_stitch_exact_samples (ext : Externals)
    (path_resolution accumulated_s : ℚ) (a b : DPRoadGraphNode)
    (rest : List DPRoadGraphNode) (hres : 0 < path_resolution) :
    (∀ x, x ∈ stitchLocal path_resolution (b.sl_point.s - a.sl_point.s) ↔
      ∃ k : ℕ, x = (k : ℚ) * path_resolution ∧
        x < b.sl_point.s - a.sl_point.s) ∧
    stitchSegments ext path_resolution accumulated_s (a :: b :: rest) =
      ((List.range
          ⌈(b.sl_point.s - a.sl_point.s) / path_resolution⌉.toNat).map
        (fun (k : ℕ) =>
          FrenetFramePoint.mk (accumulated_s + (k : ℚ) * path_resolution)
            (ext.evaluate (b.min_cost_curve.getD (mkZeroDerivCurve 0 0 0)) 0
              ((k : ℚ) * path_resolution))
            (ext.evaluate (b.min_cost_curve.getD (mkZeroDerivCurve 0 0 0)) 1
              ((k : ℚ) * path_resolution))
            (ext.evaluate (b.min_cost_curve.getD (mkZeroDerivCurve 0 0 0)) 2
              ((k : ℚ) * path_resolution)))) ++
      stitchSegments ext path_resolution
        (accumulated_s + (b.sl_point.s - a.sl_point.s)) (b :: rest) := by
  constructor
  · intro x
    exact mem_stitchLocal path_resolution _ x hres
  · simp only [stitchSegments]
    rw [stitchLocal_eq _ _ hres, List.map_map]
    rfl

theorem claim_C7_witness :
    (0 : ℚ) ∈ stitchLocal 1
        ((DPRoadGraphNode.orphan ⟨1, 0⟩ 0 none).sl_point.s -
          (DPRoadGraphNode.orphan ⟨0, 0⟩ 0 none).sl_point.s) ↔
      ∃ k : ℕ, (0 : ℚ) = (k : ℚ) * 1 ∧
        (0 : ℚ) < (DPRoadGraphNode.orphan ⟨1, 0⟩ 0 none).sl_point.s -
          (DPRoadGraphNode.orphan ⟨0, 0⟩ 0 none).sl_point.s :=
  (claim_C7_stitch_exact_samples
    ⟨fun _ _ _ => 0, fun _ _ _ => 0, fun _ => 0, fun _ _ _ _ => 0,
      fun _ _ _ _ _ => 0⟩
    1 0 (.orphan ⟨0, 0⟩ 0 none) (.orphan ⟨1, 0⟩ 0 none) []
    (by norm_num)).1 0

/- ## Lemmas: FindPathTunnel end-to-end behaviors -/

theorem UpdateCost_root (fake_sl : SLPoint) (sl : SLPoint) :
    UpdateCost (.orphan fake_sl ⊤ none) (rootNode sl)
        (rootNode sl).min_cost_curve (rootNode sl).min_cost =
      .linked fake_sl (rootNode sl) 0 none := by
  rw [UpdateCost, if_pos]
  · rfl
  · show (0 : WithTop ℚ) < ⊤
    exact lt_top_iff_ne_top.mpr (by simp)

theorem generateMinCostPath_nil (tc : QuinticPolynomialCurve1d → ℚ → ℚ → ℚ)
    (sl : SLPoint) :
    generateMinCostPath tc sl [] = [rootNode sl] := by
  rw [generateMinCostPath, generateGraphLastLevel, runLevels, aggregateSink,
    List.foldl_cons, List.foldl_nil, UpdateCost_root, backtrack]
  simp [backtrack, rootNode]

/-- When the projected initial arc length is at or beyond the reference
line end, the sampler yields zero levels, yet FindPathTunnel succeeds and
stores an empty Frenet path and an empty discretized path. -/
theorem findPathTunnel_beyond_reference_end (ext : Externals)
    (cfg : DpPolyPathConfig) (reference_line : ReferenceLine)
    (init_point : TrajectoryPoint) (path_data : PathData) (sl : SLPoint)
    (hproj : reference_line.get_point_in_frenet_frame
      ⟨init_point.x, init_point.y⟩ = some sl)
    (hbeyond : reference_line.total_length ≤ sl.s) :
    SamplePathWaypoints cfg reference_line init_point = some [] ∧
    FindPathTunnel ext cfg reference_line init_point path_data =
      (true,
        { path_data with
            frenet_path := some []
            discretized_path := some [] }) := by
  have hsample : SamplePathWaypoints cfg reference_line init_point =
      some [] := by
    rw [SamplePathWaypoints, hproj]
    simp only [Option.some_inj]
    exact sampleLevels_of_beyond cfg reference_line _ _ _ hbeyond
  refine ⟨hsample, ?_⟩
  rw [FindPathTunnel, hproj]
  simp only []
  rw [hsample]
  simp only []
  rw [generateMinCostPath_nil]
  rfl

/-- C2 (amended): if the vehicle's projected initial arc length already
reaches or exceeds the reference line's total length, the sampler
produces zero levels, but FindPathTunnel does NOT fail — it succeeds,
storing an empty Frenet path and an empty discretized path. -/
theorem claim_C2_beyond_end_succeeds (ext : Externals)
    (cfg : DpPolyPathConfig) (reference_line : ReferenceLine)
    (init_point : TrajectoryPoint) (path_data : PathData) (sl : SLPoint)
    (hproj : reference_line.get_point_in_frenet_frame
      ⟨init_point.x, init_point.y⟩ = some sl)
    (hbeyond : reference_line.total_length ≤ sl.s) :
    SamplePathWaypoints cfg reference_line init_point = some [] ∧
    FindPathTunnel ext cfg reference_line init_point path_data =
      (true,
        { path_data with
            frenet_path := some []
            discretized_path := some [] }) :=
  findPathTunnel_beyond_reference_end ext cfg reference_line init_point
    path_data sl hproj hbeyond

/-- C2 counterexample: a reference line of total length 10 whose
projection puts the vehicle at arc length 10 — the sampler produces zero
levels, yet FindPathTunnel returns success, contradicting the claim that
the overall search fails with "no path". -/
theorem claim_C2_counterexample :
    SamplePathWaypoints ⟨1, 1, 1, 1, 1, 1, 1⟩
        ⟨fun _ => some ⟨10, 0⟩, fun _ => some ⟨0, 0⟩, fun _ => ⟨0, 0, 0⟩,
          fun _ => true, 10⟩
        ⟨0, 0, 0, 1⟩ = some [] ∧
    (FindPathTunnel
        ⟨fun _ _ _ => 0, fun _ _ _ => 0, fun _ => 0, fun _ _ _ _ => 0,
          fun _ _ _ _ _ => 0⟩
        ⟨1, 1, 1, 1, 1, 1, 1⟩
        ⟨fun _ => some ⟨10, 0⟩, fun _ => some ⟨0, 0⟩, fun _ => ⟨0, 0, 0⟩,
          fun _ => true, 10⟩
        ⟨0, 0, 0, 1⟩ ⟨none, none⟩).1 = true := by
  obtain ⟨h1, h2⟩ := findPathTunnel_beyond_reference_end
    ⟨fun _ _ _ => 0, fun _ _ _ => 0, fun _ => 0, fun _ _ _ _ => 0,
      fun _ _ _ _ _ => 0⟩
    ⟨1, 1, 1, 1, 1, 1, 1⟩
    ⟨fun _ => some ⟨10, 0⟩, fun _ => some ⟨0, 0⟩, fun _ => ⟨0, 0, 0⟩,
      fun _ => true, 10⟩
    ⟨0, 0, 0, 1⟩ ⟨none, none⟩ ⟨10, 0⟩ rfl (by norm_num)
  exact ⟨h1, by rw [h2]⟩

theorem claim_C2_witness :
    SamplePathWaypoints ⟨2, 1, 1, 1, 1, 1, 1⟩
        ⟨fun _ => some ⟨7, 0⟩, fun _ => some ⟨0, 0⟩, fun _ => ⟨0, 0, 0⟩,
          fun _ => true, 5⟩
        ⟨0, 0, 0, 1⟩ = some [] ∧
    FindPathTunnel
        ⟨fun _ _ _ => 0, fun _ _ _ => 0, fun _ => 0, fun _ _ _ _ => 0,
          fun _ _ _ _ _ => 0⟩
        ⟨2, 1, 1, 1, 1, 1, 1⟩
        ⟨fun _ => some ⟨7, 0⟩, fun _ => some ⟨0, 0⟩, fun _ => ⟨0, 0, 0⟩,
          fun _ => true, 5⟩
        ⟨0, 0, 0, 1⟩ ⟨none, none⟩ =
      (true,
        { (⟨none, none⟩ : PathData) with
            frenet_path := some []
            discretized_path := some [] }) :=
  claim_C2_beyond_end_succeeds
    ⟨fun _ _ _ => 0, fun _ _ _ => 0, fun _ => 0, fun _ _ _ _ => 0,
      fun _ _ _ _ _ => 0⟩
    ⟨2, 1, 1, 1, 1, 1, 1⟩
    ⟨fun _ => some ⟨7, 0⟩, fun _ => some ⟨0, 0⟩, fun _ => ⟨0, 0, 0⟩,
      fun _ => true, 5⟩
    ⟨0, 0, 0, 1⟩ ⟨none, none⟩ ⟨7, 0⟩ rfl (by norm_num)

/-- On every failing return of FindPathTunnel, the discretized (Cartesian)
path is never stored; the container is either untouched (initial
projection or sampling failure) or — on a per-point Frenet-to-Cartesian
conversion failure — already holds the stitched Frenet sequence. -/
theorem findPathTunnel_failure_states (ext : Externals)
    (cfg : DpPolyPathConfig) (reference_line : ReferenceLine)
    (init_point : TrajectoryPoint) (path_data : PathData)
    (hfail : (FindPathTunnel ext cfg reference_line init_point path_data).1 =
      false) :
    (FindPathTunnel ext cfg reference_line init_point
        path_data).2.discretized_path = path_data.discretized_path ∧
    ((FindPathTunnel ext cfg reference_line init_point path_data).2 =
        path_data ∨
      ∃ init_sl_point path_waypoints,
        reference_line.get_point_in_frenet_frame
          ⟨init_point.x, init_point.y⟩ = some init_sl_point ∧
        SamplePathWaypoints cfg reference_line init_point =
          some path_waypoints ∧
        convertLoop ext reference_line []
          (stitchSegments ext cfg.path_resolution init_sl_point.s
            (generateMinCostPath ext.trajectory_cost init_sl_point
              path_waypoints)) = none ∧
        (FindPathTunnel ext cfg reference_line init_point path_data).2 =
          { path_data with
              frenet_path := some (stitchSegments ext cfg.path_resolution
                init_sl_point.s (generateMinCostPath ext.trajectory_cost
                  init_sl_point path_waypoints)) }) := by
  rw [FindPathTunnel] at hfail ⊢
  rcases hproj : reference_line.get_point_in_frenet_frame
      ⟨init_point.x, init_point.y⟩ with _ | init_sl_point
  · exact ⟨rfl, Or.inl rfl⟩
  · simp only [] at hfail ⊢
    rcases hsamp : SamplePathWaypoints cfg reference_line init_point with
      _ | path_waypoints
    · exact ⟨rfl, Or.inl rfl⟩
    · simp only [] at hfail ⊢
      rcases hconv : convertLoop ext reference_line []
          (stitchSegments ext cfg.path_resolution init_sl_point.s
            (generateMinCostPath ext.trajectory_cost init_sl_point
              path_waypoints)) with _ | path_points
      · exact ⟨rfl, Or.inr ⟨init_sl_point, path_waypoints, rfl, rfl, hconv,
          rfl⟩⟩
      · rw [hproj] at hfail
        simp only [] at hfail
        rw [hsamp] at hfail
        simp only [] at hfail
        rw [hconv] at hfail
        exact Bool.noConfusion hfail

/-- C3 (amended): for initial-projection and sampling failures,
FindPathTunnel returns failure with the output container unmodified; for a
per-point Frenet-to-Cartesian conversion failure during stitching, it
returns failure but the stitched Frenet sequence has already been stored
(the discretized Cartesian sequence is never stored on any failure). -/
theorem claim_C3_failure_no_discretized_path (ext : Externals)
    (cfg : DpPolyPathConfig) (reference_line : ReferenceLine)
    (init_point : TrajectoryPoint) (path_data : PathData)
    (hfail : (FindPathTunnel ext cfg reference_line init_point path_data).1 =
      false) :
    (FindPathTunnel ext cfg reference_line init_point
        path_data).2.discretized_path = path_data.discretized_path ∧
    ((FindPathTunnel ext cfg reference_line init_point path_data).2 =
        path_data ∨
      ∃ init_sl_point path_waypoints,
        reference_line.get_point_in_frenet_frame
          ⟨init_point.x, init_point.y⟩ = some init_sl_point ∧
        SamplePathWaypoints cfg reference_line init_point =
          some path_waypoints ∧
        convertLoop ext reference_line []
          (stitchSegments ext cfg.path_resolution init_sl_point.s
            (generateMinCostPath ext.trajectory_cost init_sl_point
              path_waypoints)) = none ∧
        (FindPathTunnel ext cfg reference_line init_point path_data).2 =
          { path_data with
              frenet_path := some (stitchSegments ext cfg.path_resolution
                init_sl_point.s (generateMinCostPath ext.trajectory_cost
                  init_sl_point path_waypoints)) }) :=
  findPathTunnel_failure_states ext cfg reference_line init_point path_data
    hfail

/-- C3 counterexample: with a reference line whose Frenet-to-Cartesian
conversion fails, FindPathTunnel returns failure yet the output container
holds the stitched Frenet sequence — refuting "the output path container
holds no path at all" for non-mismatch failures. -/
theorem claim_C3_counterexample :
    (FindPathTunnel
        ⟨fun _ _ _ => 0, fun _ _ _ => 0, fun _ => 0, fun _ _ _ _ => 0,
          fun _ _ _ _ _ => 0⟩
        ⟨1, 1, 1, 1, 1, 1, 1⟩
        ⟨fun _ => some ⟨0, 0⟩, fun _ => none, fun _ => ⟨0, 0, 0⟩,
          fun _ => true, 10⟩
        ⟨0, 0, 0, 1⟩ ⟨none, none⟩).1 = false ∧
    (FindPathTunnel
        ⟨fun _ _ _ => 0, fun _ _ _ => 0, fun _ => 0, fun _ _ _ _ => 0,
          fun _ _ _ _ _ => 0⟩
        ⟨1, 1, 1, 1, 1, 1, 1⟩
        ⟨fun _ => some ⟨0, 0⟩, fun _ => none, fun _ => ⟨0, 0, 0⟩,
          fun _ => true, 10⟩
        ⟨0, 0, 0, 1⟩ ⟨none, none⟩).2.frenet_path =
      some [⟨0, 0, 0, 0⟩] := by
  have hsamp : SamplePathWaypoints ⟨1, 1, 1, 1, 1, 1, 1⟩
      ⟨fun _ => some ⟨0, 0⟩, fun _ => none, fun _ => ⟨0, 0, 0⟩,
        fun _ => true, 10⟩
      ⟨0, 0, 0, 1⟩ = some [[⟨1, 0⟩]] := by
    rw [SamplePathWaypoints]
    simp only [Option.some_inj]
    norm_num [fmax, fmin, sampleLevels, levelPoints, levelLateralIndices,
      List.range_succ]
  have hcost0 : ((edgeCost (fun _ _ _ => (0 : ℚ))
        (rootNode ⟨0, 0⟩).sl_point ⟨1, 0⟩ : ℚ) : WithTop ℚ) +
        (rootNode ⟨0, 0⟩).min_cost = (0 : WithTop ℚ) := by
    show ((0 : ℚ) : WithTop ℚ) + (0 : WithTop ℚ) = 0
    rw [WithTop.coe_zero, add_zero]
  have hlt : (0 : WithTop ℚ) < ⊤ := lt_top_iff_ne_top.mpr (by simp)
  have hrelax : relaxNode (fun _ _ _ => (0 : ℚ)) [rootNode ⟨0, 0⟩] ⟨1, 0⟩ =
      .linked ⟨1, 0⟩ (rootNode ⟨0, 0⟩) 0 (some (mkZeroDerivCurve 0 0 1)) := by
    rw [relaxNode, List.foldl_cons, List.foldl_nil, hcost0, UpdateCost]
    simp only [DPRoadGraphNode.min_cost, DPRoadGraphNode.sl_point]
    rw [if_pos hlt]
    norm_num [rootNode, DPRoadGraphNode.sl_point, mkZeroDerivCurve]
  have hgen : generateMinCostPath (fun _ _ _ => (0 : ℚ)) ⟨0, 0⟩ [[⟨1, 0⟩]] =
      [rootNode ⟨0, 0⟩,
        .linked ⟨1, 0⟩ (rootNode ⟨0, 0⟩) 0 (some (mkZeroDerivCurve 0 0 1))] := by
    rw [generateMinCostPath, generateGraphLastLevel, runLevels,
      List.map_cons, List.map_nil, hrelax, runLevels, aggregateSink,
      List.foldl_cons, List.foldl_nil, UpdateCost]
    simp only [DPRoadGraphNode.min_cost, DPRoadGraphNode.sl_point]
    rw [if_pos hlt]
    simp [backtrack, rootNode]
  have hstitch : stitchSegments
      ⟨fun _ _ _ => 0, fun _ _ _ => 0, fun _ => 0, fun _ _ _ _ => 0,
        fun _ _ _ _ _ => 0⟩ 1 0
      [rootNode ⟨0, 0⟩,
        .linked ⟨1, 0⟩ (rootNode ⟨0, 0⟩) 0 (some (mkZeroDerivCurve 0 0 1))] =
      [⟨0, 0, 0, 0⟩] := by
    simp only [stitchSegments]
    rw [stitchLocal_eq _ _ (by norm_num)]
    norm_num [rootNode, DPRoadGraphNode.sl_point, DPRoadGraphNode.min_cost_curve,
      List.range_succ]
  have hconv : convertLoop
      ⟨fun _ _ _ => 0, fun _ _ _ => 0, fun _ => 0, fun _ _ _ _ => 0,
        fun _ _ _ _ _ => 0⟩
      ⟨fun _ => some ⟨0, 0⟩, fun _ => none, fun _ => ⟨0, 0, 0⟩,
        fun _ => true, 10⟩
      [] [⟨0, 0, 0, 0⟩] = none := rfl
  have hres : FindPathTunnel
      ⟨fun _ _ _ => 0, fun _ _ _ => 0, fun _ => 0, fun _ _ _ _ => 0,
        fun _ _ _ _ _ => 0⟩
      ⟨1, 1, 1, 1, 1, 1, 1⟩
      ⟨fun _ => some ⟨0, 0⟩, fun _ => none, fun _ => ⟨0, 0, 0⟩,
        fun _ => true, 10⟩
      ⟨0, 0, 0, 1⟩ ⟨none, none⟩ =
      (false, { frenet_path := some [⟨0, 0, 0, 0⟩], discretized_path := none }) := by
    rw [FindPathTunnel]
    simp only []
    rw [hsamp]
    simp only []
    rw [hgen, hstitch, hconv]
  rw [hres]
  exact ⟨rfl, rfl⟩

theorem claim_C3_witness :
    (FindPathTunnel
        ⟨fun _ _ _ => 0, fun _ _ _ => 0, fun _ => 0, fun _ _ _ _ => 0,
          fun _ _ _ _ _ => 0⟩
        ⟨3, 3, 1, 1, 1, 1, 1⟩
        ⟨fun _ => none, fun _ => some ⟨0, 0⟩, fun _ => ⟨0, 0, 0⟩,
          fun _ => true, 20⟩
        ⟨1, 1, 0, 1⟩ ⟨none, none⟩).2.discretized_path = none :=
  (claim_C3_failure_no_discretized_path
    ⟨fun _ _ _ => 0, fun _ _ _ => 0, fun _ => 0, fun _ _ _ _ => 0,
      fun _ _ _ _ _ => 0⟩
    ⟨3, 3, 1, 1, 1, 1, 1⟩
    ⟨fun _ => none, fun _ => some ⟨0, 0⟩, fun _ => ⟨0, 0, 0⟩,
      fun _ => true, 20⟩
    ⟨1, 1, 0, 1⟩ ⟨none, none⟩ rfl).1
